import Mathlib

/-!
# Background colour cycler (`script.js`)

A shallow embedding of the script

    let colors = ["#FF5733", "#33FF57", "#3357FF", "#F3FF33", "#FF33A8"];
    let index = 0;
    function changeBackgroundColor() {
        document.body.style.backgroundColor = colors[index];
        index = (index + 1) % colors.length;
    }
    setInterval(changeBackgroundColor, 1000);

The program state is made explicit: the two module-level variables `colors`
and `index`, and the one DOM property the script writes, the background
colour of the page body.  A call of `changeBackgroundColor` is a function on
that state; the timer is modelled by the number of times it has fired.
-/

namespace ColorCycler

/-! ## Values -/

/-- Numbers as the script can produce them: an integer or `NaN`.
`NaN` is what `%` yields for a zero divisor.  Integer arithmetic on doubles is
exact below `2 ^ 53`, far above any array length, so integers are modelled by
`Int` (negative zero is identified with zero: both name the property `"0"`). -/
inductive JSNum where
  | int (i : Int)
  | nan
  deriving DecidableEq, Repr

/-- Values read from the palette: a string, or `undefined` when the property
read does not exist. -/
inductive JSVal where
  | str (s : String)
  | undefined
  deriving DecidableEq, Repr

namespace JSNum

/-- The operator `+` on numbers: `NaN` is absorbing. -/
def add : JSNum → JSNum → JSNum
  | int a, int b => int (a + b)
  | _, _ => nan

/-- The operator `%` on numbers: the remainder takes the sign of the dividend
(truncated division), and is `NaN` when the divisor is zero or an operand is
`NaN`. -/
def mod : JSNum → JSNum → JSNum
  | int a, int b => if b = 0 then nan else int (Int.tmod a b)
  | _, _ => nan

end JSNum

/-- The property read `arr[i]` on an array of strings: the element at position
`i` when `i` is an integer with `0 ≤ i < arr.length`, `undefined` otherwise
(negative index, index past the end, `NaN`). -/
def jsIndex (arr : List String) : JSNum → JSVal
  | JSNum.int i =>
    if 0 ≤ i then
      match arr[i.toNat]? with
      | some c => JSVal.str c
      | none => JSVal.undefined
    else JSVal.undefined
  | JSNum.nan => JSVal.undefined

/-- The property read `arr.length`. -/
def jsLength (arr : List String) : JSNum :=
  JSNum.int (arr.length : Int)

/-! ## State -/

/-- The explicit state: the module variables `colors` and `index`, and
`document.body.style.backgroundColor`, modelled as a plain settable property
that holds the value last assigned to it. -/
structure State where
  colors : List String
  index : JSNum
  background : JSVal
  deriving DecidableEq, Repr

/-- Line 1: `let colors = ["#FF5733", "#33FF57", "#3357FF", "#F3FF33", "#FF33A8"];` -/
def colors : List String :=
  ["#FF5733", "#33FF57", "#3357FF", "#F3FF33", "#FF33A8"]

/-- Line 2: `let index = 0;` -/
def index : JSNum :=
  JSNum.int 0

/-- The state once the two `let` declarations have run.  The script does not
set the background before the first tick; its value `bg` is whatever the page
starts with. -/
def initialState (bg : JSVal) : State :=
  { colors := colors, index := index, background := bg }

/-! ## The callback -/

/-- One assignment performed by the callback, with the value assigned. -/
inductive Write where
  | background (v : JSVal)
  | index (v : JSNum)
  deriving DecidableEq, Repr

/-- Effect of one assignment on the state. -/
def Write.apply : Write → State → State
  | Write.background v, s => { s with background := v }
  | Write.index v, s => { s with index := v }

/-- True on assignments to the background. -/
def Write.isBackground : Write → Bool
  | Write.background _ => true
  | Write.index _ => false

/-- True on assignments to `index`. -/
def Write.isIndex : Write → Bool
  | Write.background _ => false
  | Write.index _ => true

/-- The assignments one call of `changeBackgroundColor` performs, in program
order.  The right-hand side of the second statement is evaluated in the state
left by the first. -/
def changeBackgroundColorWrites (s : State) : List Write :=
  -- document.body.style.backgroundColor = colors[index];
  let w1 := Write.background (jsIndex s.colors s.index)
  let s1 := w1.apply s
  -- index = (index + 1) % colors.length;
  let w2 := Write.index (JSNum.mod (JSNum.add s1.index (JSNum.int 1)) (jsLength s1.colors))
  [w1, w2]

/-- The function `changeBackgroundColor`: the state after one call. -/
def changeBackgroundColor (s : State) : State :=
  (changeBackgroundColorWrites s).foldl (fun st w => w.apply st) s

/-- The state after the timer set up by `setInterval(changeBackgroundColor, 1000)`
has fired `k` times, starting from `s`. -/
def ticks : Nat → State → State
  | 0, s => s
  | k + 1, s => changeBackgroundColor (ticks k s)

/-- The colour assigned to the background by the call that follows `n`
completed ticks (the call number `n + 1`), starting from the initial state. -/
def applied (bg : JSVal) (n : Nat) : JSVal :=
  (ticks (n + 1) (initialState bg)).background

/-- States the program can be in: the initial state and every state a call of
`changeBackgroundColor` produces from one of them. -/
inductive Reachable : State → Prop where
  | init (bg : JSVal) : Reachable (initialState bg)
  | tick {s : State} : Reachable s → Reachable (changeBackgroundColor s)

/-- The cursor invariant: `index` is an integer `i` with `0 ≤ i < colors.length`. -/
def IndexInRange (s : State) : Prop :=
  ∃ i : Int, s.index = JSNum.int i ∧ 0 ≤ i ∧ i < (s.colors.length : Int)

/-! ## Basic facts -/

theorem changeBackgroundColor_eq (s : State) :
    changeBackgroundColor s =
      { colors := s.colors
        index := JSNum.mod (JSNum.add s.index (JSNum.int 1)) (jsLength s.colors)
        background := jsIndex s.colors s.index } := rfl

theorem ticks_succ (k : Nat) (s : State) :
    ticks (k + 1) s = changeBackgroundColor (ticks k s) := rfl

theorem ticks_add (p k : Nat) (s : State) :
    ticks (p + k) s = ticks p (ticks k s) := by
  induction p with
  | zero => simp [ticks]
  | succ p ih => rw [Nat.succ_add, ticks_succ, ticks_succ, ih]

theorem changeBackgroundColor_colors (s : State) :
    (changeBackgroundColor s).colors = s.colors := rfl

theorem ticks_colors (k : Nat) (s : State) : (ticks k s).colors = s.colors := by
  induction k with
  | zero => rfl
  | succ k ih => rw [ticks_succ, changeBackgroundColor_colors, ih]

theorem colors_length : colors.length = 5 := rfl

/-- The remainder computed on line 6, for a cursor inside a non-empty palette. -/
theorem mod_succ_of_inRange (i : Int) (n : Nat) (h0 : 0 ≤ i) (hn : i < (n : Int)) :
    JSNum.mod (JSNum.add (JSNum.int i) (JSNum.int 1)) (JSNum.int (n : Int))
      = JSNum.int ((i + 1) % (n : Int)) := by
  have hne : ((n : Int) = 0) = False := by
    apply eq_false
    omega
  simp only [JSNum.add, JSNum.mod, hne, if_false]
  rw [Int.tmod_eq_emod (by omega) (by omega)]

/-- The read on line 5, for a cursor inside the palette. -/
theorem jsIndex_of_inRange (arr : List String) (i : Int) (h0 : 0 ≤ i)
    (hn : i < (arr.length : Int)) :
    ∃ c, arr[i.toNat]? = some c ∧ c ∈ arr ∧ jsIndex arr (JSNum.int i) = JSVal.str c := by
  have hlt : i.toNat < arr.length := by omega
  refine ⟨arr[i.toNat], List.getElem?_eq_getElem hlt, List.getElem_mem hlt, ?_⟩
  simp [jsIndex, h0, List.getElem?_eq_getElem hlt]

theorem indexInRange_step (s : State) (h : IndexInRange s) :
    IndexInRange (changeBackgroundColor s) := by
  obtain ⟨i, hi, h0, hn⟩ := h
  have hpos : (0 : Int) < (s.colors.length : Int) := by omega
  refine ⟨(i + 1) % (s.colors.length : Int), ?_, ?_, ?_⟩
  · rw [changeBackgroundColor_eq]
    simp only [hi, jsLength]
    exact mod_succ_of_inRange i s.colors.length h0 hn
  · exact Int.emod_nonneg _ (by omega)
  · rw [changeBackgroundColor_colors]
    exact Int.emod_lt_of_pos _ hpos

theorem indexInRange_initial (bg : JSVal) : IndexInRange (initialState bg) := by
  refine ⟨0, rfl, le_refl 0, ?_⟩
  show (0 : Int) < ((5 : Nat) : Int)
  decide

theorem indexInRange_of_reachable {s : State} (h : Reachable s) : IndexInRange s := by
  induction h with
  | init bg => exact indexInRange_initial bg
  | tick _ ih => exact indexInRange_step _ ih

theorem reachable_ticks (k : Nat) {s : State} (h : Reachable s) : Reachable (ticks k s) := by
  induction k with
  | zero => exact h
  | succ k ih => exact Reachable.tick ih

theorem reachable_iff (s : State) :
    Reachable s ↔ ∃ k bg, s = ticks k (initialState bg) := by
  constructor
  · intro h
    induction h with
    | init bg => exact ⟨0, bg, rfl⟩
    | tick _ ih =>
      obtain ⟨k, bg, rfl⟩ := ih
      exact ⟨k + 1, bg, rfl⟩
  · rintro ⟨k, bg, rfl⟩
    exact reachable_ticks k (Reachable.init bg)

/-- The cursor after `k` ticks from the initial state. -/
theorem ticks_index (bg : JSVal) (k : Nat) :
    (ticks k (initialState bg)).index = JSNum.int ((k % 5 : Nat) : Int) := by
  induction k with
  | zero => rfl
  | succ k ih =>
    rw [ticks_succ, changeBackgroundColor_eq]
    simp only [ih, ticks_colors, jsLength]
    have h := mod_succ_of_inRange ((k % 5 : Nat) : Int) 5 (by omega) (by omega)
    rw [show (initialState bg).colors.length = 5 from rfl, h]
    congr 1
    omega

/-- The palette entry with number `n % 5`, read the way line 5 reads it. -/
theorem jsIndex_colors_mod (n : Nat) :
    ∃ c, colors[n % colors.length]? = some c ∧
      jsIndex colors (JSNum.int ((n % 5 : Nat) : Int)) = JSVal.str c := by
  have hlt : n % 5 < 5 := Nat.mod_lt _ (by decide)
  obtain ⟨c, hc, -, hj⟩ := jsIndex_of_inRange colors ((n % 5 : Nat) : Int) (by omega)
    (by rw [colors_length]; omega)
  refine ⟨c, ?_, hj⟩
  rw [colors_length]
  simpa using hc

theorem applied_eq (bg : JSVal) (n : Nat) :
    applied bg n = jsIndex colors (JSNum.int ((n % 5 : Nat) : Int)) := by
  unfold applied
  rw [ticks_succ, changeBackgroundColor_eq]
  simp only [ticks_index, ticks_colors]
  rfl

/-- Distinct cursor positions read distinct palette entries. -/
theorem jsIndex_colors_injective (a b : Nat) (ha : a < 5) (hb : b < 5)
    (h : jsIndex colors (JSNum.int (a : Int)) = jsIndex colors (JSNum.int (b : Int))) :
    a = b := by
  have key : ∀ x : Fin 5, ∀ y : Fin 5,
      jsIndex colors (JSNum.int ((x : Nat) : Int)) = jsIndex colors (JSNum.int ((y : Nat) : Int)) →
        x = y := by decide
  have := key ⟨a, ha⟩ ⟨b, hb⟩ h
  exact congrArg Fin.val this

/-! ## The claims -/

/-- C1. Starting from the initial state, for every `n ≥ 0` the colour assigned
to the background by the call that follows `n` completed ticks is
`colors[n mod colors.length]`. -/
theorem applied_color_eq_palette_mod (bg : JSVal) (n : Nat) :
    some (applied bg n) = (colors[n % colors.length]?).map JSVal.str := by
  obtain ⟨c, hc, hj⟩ := jsIndex_colors_mod n
  rw [applied_eq, hj, hc]
  rfl

/-- C2. Starting from the initial state, the value of `index` after `k` calls
of `changeBackgroundColor` is `k mod colors.length`, that is `k mod 5`. -/
theorem index_after_ticks (bg : JSVal) (k : Nat) :
    (ticks k (initialState bg)).index = JSNum.int ((k % colors.length : Nat) : Int) ∧
      colors.length = 5 :=
  ⟨ticks_index bg k, rfl⟩

/-- C3. In a state whose `index` is an integer `i` with `0 ≤ i < colors.length`,
one call sets the background to `colors[i]`, the entry at the cursor before the
call, and leaves `index` at `i + 1` when `i < colors.length - 1` and at `0` when
`i = colors.length - 1`. -/
theorem changeBackgroundColor_contract (s : State) (i : Int)
    (hi : s.index = JSNum.int i) (h0 : 0 ≤ i) (hn : i < (s.colors.length : Int)) :
    some (changeBackgroundColor s).background = (s.colors[i.toNat]?).map JSVal.str ∧
      (i < (s.colors.length : Int) - 1 →
        (changeBackgroundColor s).index = JSNum.int (i + 1)) ∧
      (i = (s.colors.length : Int) - 1 →
        (changeBackgroundColor s).index = JSNum.int 0) := by
  obtain ⟨c, hc, -, hj⟩ := jsIndex_of_inRange s.colors i h0 hn
  have hidx : (changeBackgroundColor s).index = JSNum.int ((i + 1) % (s.colors.length : Int)) := by
    rw [changeBackgroundColor_eq]
    simp only [hi, jsLength]
    exact mod_succ_of_inRange i s.colors.length h0 hn
  refine ⟨?_, ?_, ?_⟩
  · rw [changeBackgroundColor_eq]
    simp only [hi, hj, hc]
    rfl
  · intro hlt
    rw [hidx, Int.emod_eq_of_lt (by omega) (by omega)]
  · intro heq
    rw [hidx]
    have : i + 1 = (s.colors.length : Int) := by omega
    rw [this, Int.emod_self]

/-- Witness for C3: the last cursor position of the program palette, where the
cursor wraps to zero. -/
theorem changeBackgroundColor_contract_witness :
    (0 : Int) ≤ 4 ∧ (4 : Int) < (colors.length : Int) ∧
      some (changeBackgroundColor ⟨colors, JSNum.int 4, JSVal.undefined⟩).background
        = (colors[(4 : Int).toNat]?).map JSVal.str ∧
      (changeBackgroundColor ⟨colors, JSNum.int 4, JSVal.undefined⟩).index = JSNum.int 0 :=
  ⟨by decide, by decide,
    (changeBackgroundColor_contract ⟨colors, JSNum.int 4, JSVal.undefined⟩ 4 rfl
      (by decide) (by decide)).1,
    (changeBackgroundColor_contract ⟨colors, JSNum.int 4, JSVal.undefined⟩ 4 rfl
      (by decide) (by decide)).2.2 (by decide)⟩

/-- C4. The predicate `0 ≤ index < colors.length`, with `index` an integer,
holds in the initial state, is preserved by every call of
`changeBackgroundColor`, and so holds in every reachable state. -/
theorem index_in_range_invariant :
    (∀ bg, IndexInRange (initialState bg)) ∧
      (∀ s, IndexInRange s → IndexInRange (changeBackgroundColor s)) ∧
      (∀ s, Reachable s → IndexInRange s) :=
  ⟨indexInRange_initial, indexInRange_step, fun _ h => indexInRange_of_reachable h⟩

/-- Witness for C4: the state after the first tick. -/
theorem index_in_range_invariant_witness :
    IndexInRange (changeBackgroundColor (initialState JSVal.undefined)) :=
  index_in_range_invariant.2.2 _ (Reachable.tick (Reachable.init JSVal.undefined))

/-- C5. In every reachable state the read `colors[index]` yields an element of
the palette, never `undefined`; the modulus `colors.length` is not zero; and the
call leaves neither `undefined` in the background nor `NaN` in `index`. -/
theorem lookup_succeeds_of_reachable (s : State) (h : Reachable s) :
    (∃ c, c ∈ s.colors ∧ jsIndex s.colors s.index = JSVal.str c) ∧
      jsLength s.colors ≠ JSNum.int 0 ∧
      (changeBackgroundColor s).background ≠ JSVal.undefined ∧
      (changeBackgroundColor s).index ≠ JSNum.nan := by
  obtain ⟨i, hi, h0, hn⟩ := indexInRange_of_reachable h
  obtain ⟨c, -, hmem, hj⟩ := jsIndex_of_inRange s.colors i h0 hn
  obtain ⟨j, hj2, -, -⟩ := indexInRange_of_reachable (Reachable.tick h)
  refine ⟨⟨c, hmem, by rw [hi, hj]⟩, ?_, ?_, ?_⟩
  · intro hz
    have hz2 : (s.colors.length : Int) = 0 := by
      simpa [jsLength] using hz
    omega
  · rw [changeBackgroundColor_eq]
    simp [hi, hj]
  · rw [hj2]
    exact fun hc => JSNum.noConfusion hc

/-- Witness for C5: the state after three ticks. -/
theorem lookup_succeeds_of_reachable_witness :
    Reachable (ticks 3 (initialState JSVal.undefined)) ∧
      (∃ c, c ∈ (ticks 3 (initialState JSVal.undefined)).colors ∧
        jsIndex (ticks 3 (initialState JSVal.undefined)).colors
          (ticks 3 (initialState JSVal.undefined)).index = JSVal.str c) :=
  ⟨reachable_ticks 3 (Reachable.init JSVal.undefined),
    (lookup_succeeds_of_reachable (ticks 3 (initialState JSVal.undefined))
      (reachable_ticks 3 (Reachable.init JSVal.undefined))).1⟩

/-- C6. A call of `changeBackgroundColor` leaves `colors` as it was, in every
state; hence any number of ticks does, and after any number of ticks from the
initial state `colors` is still the five-element literal. -/
theorem colors_unchanged :
    (∀ s, (changeBackgroundColor s).colors = s.colors) ∧
      (∀ k s, (ticks k s).colors = s.colors) ∧
      (∀ k bg, (ticks k (initialState bg)).colors
        = ["#FF5733", "#33FF57", "#3357FF", "#F3FF33", "#FF33A8"]) :=
  ⟨changeBackgroundColor_colors, ticks_colors, fun k bg => ticks_colors k (initialState bg)⟩

/-- C7. With the program palette and ticks counted from 1, the first tick
applies `"#FF5733"`, the second applies `"#33FF57"`, and the sixth applies
`"#FF5733"` again. -/
theorem scenario_first_second_sixth (bg : JSVal) :
    colors = ["#FF5733", "#33FF57", "#3357FF", "#F3FF33", "#FF33A8"] ∧
      (ticks 1 (initialState bg)).background = JSVal.str "#FF5733" ∧
      (ticks 2 (initialState bg)).background = JSVal.str "#33FF57" ∧
      (ticks 6 (initialState bg)).background = JSVal.str "#FF5733" := by
  refine ⟨rfl, ?_, ?_, ?_⟩
  · exact (applied_eq bg 0).trans (by decide)
  · exact (applied_eq bg 1).trans (by decide)
  · exact (applied_eq bg 5).trans (by decide)

/-- C8. One call of `changeBackgroundColor` is the replay, on the state before
the call, of exactly two assignments: first one to the background, carrying
`colors[index]`, then one to `index`, carrying `(index + 1) % colors.length`.
There is exactly one assignment to each of the two, the state after the call
holds the two assigned values, and `colors` is unchanged.  In a reachable state
the value of `index` after the call differs from its value before. -/
theorem one_write_each (s : State) :
    changeBackgroundColor s
        = (changeBackgroundColorWrites s).foldl (fun st w => w.apply st) s ∧
      changeBackgroundColorWrites s =
        [Write.background (jsIndex s.colors s.index),
          Write.index (JSNum.mod (JSNum.add s.index (JSNum.int 1)) (jsLength s.colors))] ∧
      (changeBackgroundColorWrites s).length = 2 ∧
      (changeBackgroundColorWrites s).countP Write.isBackground = 1 ∧
      (changeBackgroundColorWrites s).countP Write.isIndex = 1 ∧
      (changeBackgroundColor s).background = jsIndex s.colors s.index ∧
      (changeBackgroundColor s).index
        = JSNum.mod (JSNum.add s.index (JSNum.int 1)) (jsLength s.colors) ∧
      (changeBackgroundColor s).colors = s.colors ∧
      (Reachable s → (changeBackgroundColor s).index ≠ s.index) := by
  refine ⟨rfl, rfl, rfl, rfl, rfl, rfl, rfl, rfl, ?_⟩
  intro h
  obtain ⟨k, bg, rfl⟩ := (reachable_iff s).1 h
  rw [← ticks_succ, ticks_index, ticks_index]
  intro hc
  have h2 : (((k + 1) % 5 : Nat) : Int) = ((k % 5 : Nat) : Int) := JSNum.int.inj hc
  omega

/-- Witness for C8: the first tick, from a page whose background is not set,
paints the first palette entry and moves the cursor. -/
theorem one_write_each_witness :
    Reachable (initialState JSVal.undefined) ∧
      (changeBackgroundColor (initialState JSVal.undefined)).background
        = jsIndex (initialState JSVal.undefined).colors (initialState JSVal.undefined).index ∧
      jsIndex (initialState JSVal.undefined).colors (initialState JSVal.undefined).index
        = JSVal.str "#FF5733" ∧
      (changeBackgroundColor (initialState JSVal.undefined)).index
        ≠ (initialState JSVal.undefined).index :=
  ⟨Reachable.init JSVal.undefined,
    (one_write_each (initialState JSVal.undefined)).2.2.2.2.2.1,
    by decide,
    (one_write_each (initialState JSVal.undefined)).2.2.2.2.2.2.2.2
      (Reachable.init JSVal.undefined)⟩

/-- C9. The five palette entries are pairwise distinct and there are at least
two of them; the colour applied by a tick differs from the colour applied by
the tick before it; and within any five consecutive ticks no colour is applied
twice. -/
theorem consecutive_ticks_differ (bg : JSVal) (n : Nat) :
    colors.Nodup ∧ 2 ≤ colors.length ∧
      applied bg (n + 1) ≠ applied bg n ∧
      (∀ i j, i < j → j < 5 → applied bg (n + i) ≠ applied bg (n + j)) := by
  refine ⟨by decide, by decide, ?_, ?_⟩
  · rw [applied_eq, applied_eq]
    intro hc
    have := jsIndex_colors_injective _ _ (Nat.mod_lt _ (by decide)) (Nat.mod_lt _ (by decide)) hc
    omega
  · intro i j hij hj
    rw [applied_eq, applied_eq]
    intro hc
    have := jsIndex_colors_injective _ _ (Nat.mod_lt _ (by decide)) (Nat.mod_lt _ (by decide)) hc
    omega

/-- Witness for C9: the second and the fifth tick of the window that starts at
the third call. -/
theorem consecutive_ticks_differ_witness :
    (1 : Nat) < 4 ∧ (4 : Nat) < 5 ∧
      applied JSVal.undefined (2 + 1) ≠ applied JSVal.undefined (2 + 4) :=
  ⟨by decide, by decide,
    (consecutive_ticks_differ JSVal.undefined 2).2.2.2 1 4 (by decide) (by decide)⟩

/-- C10. The cycler has period exactly five: from every reachable state five
calls bring `index` back to its value, no smaller positive number of calls
does, and the colours applied by ticks `n` and `n + 5` are equal. -/
theorem period_five (s : State) (h : Reachable s) :
    colors.length = 5 ∧
      (ticks 5 s).index = s.index ∧
      (∀ p, 0 < p → p < 5 → (ticks p s).index ≠ s.index) ∧
      (∀ bg n, applied bg (n + 5) = applied bg n) := by
  obtain ⟨k, bg, rfl⟩ := (reachable_iff s).1 h
  refine ⟨rfl, ?_, ?_, ?_⟩
  · rw [← ticks_add, ticks_index, ticks_index]
    congr 1
    omega
  · intro p hp0 hp5
    rw [← ticks_add, ticks_index, ticks_index]
    intro hc
    have h2 : (((p + k) % 5 : Nat) : Int) = ((k % 5 : Nat) : Int) := JSNum.int.inj hc
    omega
  · intro bg2 n
    rw [applied_eq, applied_eq]
    congr 2
    omega

/-- Witness for C10: the state after two ticks. -/
theorem period_five_witness :
    Reachable (ticks 2 (initialState JSVal.undefined)) ∧
      (ticks 5 (ticks 2 (initialState JSVal.undefined))).index
        = (ticks 2 (initialState JSVal.undefined)).index :=
  ⟨reachable_ticks 2 (Reachable.init JSVal.undefined),
    (period_five (ticks 2 (initialState JSVal.undefined))
      (reachable_ticks 2 (Reachable.init JSVal.undefined))).2.1⟩

end ColorCycler
